import Mathlib

/-!
Verification of the webhook-logger server (src/server.js) against its
specification.  The server receives webhook POSTs, persists each one as a
timestamped record, and serves a browsing interface.  Two storage backends
exist: local files (development) and PostgreSQL (production).

Modelling conventions:
  * JSON values are the inductive `Json`.  The external JSON library
    (`JSON.stringify` / `JSON.parse`) is modelled abstractly: a stored text
    is represented by `JsonDoc`, either the serialization of a `Json` value
    (`wellFormed v`, for which parsing returns `v` — the library guarantee
    that parse is a left inverse of stringify) or a text that is not valid
    JSON (`illFormed s`, for which parsing throws).
  * The filesystem is a list of (absolute path, file content) entries, a
    path being its list of segments.  `Node`'s `path.join` is modelled by
    `pathJoin`, which splits the joined name on `/` and normalizes `.`, the
    empty segment and `..` exactly as `path.join` does against an absolute
    base.  `__dirname` is the abstract constant `dirname`.
  * The database is a list of rows in insertion order plus the SERIAL
    counter.  The JSONB columns hold structured values: the pg driver
    returns JSONB columns already parsed, so the `typeof === 'string'`
    branch of the source normalization is the identity here.  A SELECT
    without ORDER BY is modelled as scanning rows in insertion order.
  * Each `new Date()` call is a distinct clock read and is therefore a
    distinct parameter (`t1` for the identifier at line 80, `t2` for the
    stored timestamp at line 84, `now` for the database server clock).
  * A storage medium failure (disk full, lost connection) is the `Option
    String` parameter `writeFailure` of the handler: `some msg` means the
    underlying write threw an error whose message is `msg`.
-/

namespace WebhookLogger

/-- JSON-compatible structured values. -/
inductive Json where
  | null : Json
  | bool (b : Bool) : Json
  | num (n : Int) : Json
  | str (s : String) : Json
  | arr (elems : List Json) : Json
  | obj (fields : List (String × Json)) : Json

/-- A stored JSON text, represented abstractly: either the serialization of
a value, or an ill-formed text. -/
inductive JsonDoc where
  | wellFormed (v : Json) : JsonDoc
  | illFormed (s : String) : JsonDoc

/-- Model of `JSON.stringify`. -/
def jsonStringify (v : Json) : JsonDoc := .wellFormed v

/-- Model of `JSON.parse`: inverse of stringify on well-formed texts, throws
on ill-formed texts. -/
def jsonParse : JsonDoc → Except String Json
  | .wellFormed v => .ok v
  | .illFormed s => .error ("Unexpected token in JSON: " ++ s)

/-- JavaScript property access `v[key]` on a parsed JSON value: `none`
models `undefined`. -/
def jGet : Json → String → Option Json
  | .obj fields, key => findField fields key
  | _, _ => none
where
  findField : List (String × Json) → String → Option Json
    | [], _ => none
    | f :: rest, key => if f.1 = key then some f.2 else findField rest key

/-- Lexicographic order on character lists, the order JavaScript's default
`Array.prototype.sort` comparator induces on (ASCII) strings. -/
def listLtB : List Char → List Char → Bool
  | [], [] => false
  | [], _ :: _ => true
  | _ :: _, [] => false
  | a :: as, b :: bs => if a < b then true else if b < a then false else listLtB as bs

/-- String version of `listLtB`. -/
def strLtB (a b : String) : Bool := listLtB a.data b.data

/-- Non-strict companion of `strLtB`. -/
def strLeB (a b : String) : Bool := !(strLtB b a)

/-- Character-list test that the first list starts with the second. -/
def listStartsWith : List Char → List Char → Bool
  | _, [] => true
  | [], _ :: _ => false
  | c :: cs, p :: ps => c = p && listStartsWith cs ps

/-- Model of `String.prototype.endsWith`: the reversed text starts with the
reversed pattern. -/
def strEndsWith (s pat : String) : Bool :=
  listStartsWith s.data.reverse pat.data.reverse

/-- Insertion step of ascending insertion sort, modelling JavaScript's
default `sort()`. -/
def insertAsc (r : String) : List String → List String
  | [] => [r]
  | x :: xs => if strLeB r x then r :: x :: xs else x :: insertAsc r xs

/-- Ascending sort of strings, modelling `files.sort()` (line 138). -/
def sortAsc : List String → List String
  | [] => []
  | x :: xs => insertAsc x (sortAsc xs)

/-- Characterization of strictly increasing lists of strings (under the
JavaScript string order), consecutive-pairs form. -/
def strictIncrStr : List String → Bool
  | [] => true
  | [_] => true
  | a :: b :: rest => strLtB a b && strictIncrStr (b :: rest)

/-- Characterization of strictly increasing lists of naturals,
consecutive-pairs form. -/
def strictIncrNat : List Nat → Bool
  | [] => true
  | [_] => true
  | a :: b :: rest => decide (a < b) && strictIncrNat (b :: rest)

/-- Model of `timestamp.replace(/:/g, '-')` (line 80). -/
def replaceColons (s : String) : String :=
  ⟨s.data.map fun c => if c = ':' then '-' else c⟩

/-- The filename built at line 81: `webhook-<timestamp-with-hyphens>.json`.
It is both the file name on disk and the `filename` column value, i.e. the
record's identifier. -/
def makeFilename (t1 : String) : String :=
  "webhook-" ++ replaceColons t1 ++ ".json"

/-- Abstract absolute path of `__dirname`. -/
def dirname : List String := ["srv", "app"]

/-- The logs directory `path.join(__dirname, 'logs')` (line 47). -/
def logsDir : List String := dirname ++ ["logs"]

/-- Splitting a character list on `/`. -/
def splitSlash : List Char → List (List Char)
  | [] => [[]]
  | c :: rest =>
    match splitSlash rest with
    | [] => [[]]
    | seg :: segs => if c = '/' then [] :: seg :: segs else (c :: seg) :: segs

/-- Appending path segments to an absolute base, resolving `.` , `..` and
empty segments the way `path.join` normalizes them. -/
def normAppend (base : List String) : List String → List String
  | [] => base
  | seg :: rest =>
    if seg = "" ∨ seg = "." then normAppend base rest
    else if seg = ".." then normAppend base.dropLast rest
    else normAppend (base ++ [seg]) rest

/-- Model of `path.join(base, name)` for an absolute `base` (lines 101 and
217). -/
def pathJoin (base : List String) (name : String) : List String :=
  normAppend base ((splitSlash name.data).map fun l => (⟨l⟩ : String))

/-- A webhook payload as the request handler sees it: parsed headers, body
and query. -/
structure Payload where
  headers : Json
  body : Json
  query : Json

/-- The object built at lines 83-88 and serialized into the file. -/
def logData (t2 : String) (p : Payload) : Json :=
  .obj [("timestamp", .str t2), ("headers", p.headers),
        ("body", p.body), ("query", p.query)]

/-- One inbound POST /webhook, with its two clock reads (`t1` line 80,
`t2` line 84), the database server clock value `now` used for
`created_at`, and the parsed payload. -/
structure SaveEvent where
  t1 : String
  t2 : String
  now : Nat
  payload : Payload

/-- The filesystem: absolute paths mapped to file contents. -/
structure FileSystem where
  files : List (List String × JsonDoc)

/-- Lookup of an absolute path among file entries. -/
def findEntry : List (List String × JsonDoc) → List String → Option JsonDoc
  | [], _ => none
  | e :: rest, p => if e.1 = p then some e.2 else findEntry rest p

/-- Model of `fs.writeFileSync` (line 100): creates the file or silently
truncates and overwrites an existing one. -/
def fsWrite (fs : FileSystem) (p : List String) (d : JsonDoc) : FileSystem :=
  ⟨(p, d) :: fs.files.filter fun e => e.1 ≠ p⟩

/-- Model of `fs.readdir(logsDir)` (line 137): the names of the immediate
entries of the logs directory. -/
def readdir (fs : FileSystem) : List String :=
  fs.files.filterMap fun e =>
    if e.1.dropLast = logsDir then e.1.getLast? else none

/-- The empty filesystem. -/
def emptyFs : FileSystem := ⟨[]⟩

/-- The file-backend save (lines 80-103, file branch): serialize `logData`
and write it under `webhook-<t1'>.json` in the logs directory.  Returns the
new state and the filename (the record's identifier). -/
def fileSave (fs : FileSystem) (e : SaveEvent) : FileSystem × String :=
  let filename := makeFilename e.t1
  (fsWrite fs (pathJoin logsDir filename) (jsonStringify (logData e.t2 e.payload)),
   filename)

/-- Outcome of GET /logs/:filename as far as the claims observe it: the 404
branch, the rendered page's three structured sections, or the caught-error
500 branch. -/
inductive GetResult where
  | notFound : GetResult
  | render (headers body query : Option Json) : GetResult
  | readError (msg : String) : GetResult

/-- The file-backend read path of GET /logs/:filename (lines 215-254):
join the requested name onto the logs directory, 404 when the path does not
exist, otherwise parse; a parse failure is caught and becomes the 500
`Error reading log` response; otherwise the page renders
`logData.headers`, `logData.body`, `logData.query`. -/
def fileGet (fs : FileSystem) (filename : String) : GetResult :=
  match findEntry fs.files (pathJoin logsDir filename) with
  | none => .notFound
  | some doc =>
    match jsonParse doc with
    | .error msg => .readError ("Error reading log: " ++ msg)
    | .ok v => .render (jGet v "headers") (jGet v "body") (jGet v "query")

/-- The file-backend listing (lines 137-138): read the directory, keep the
names ending in `.json`, sort ascending, reverse. -/
def fileList (fs : FileSystem) : List String :=
  (sortAsc ((readdir fs).filter fun f => strEndsWith f ".json")).reverse

/-- One row of the `webhook_logs` table.  The JSONB columns hold structured
values (the driver returns them parsed). -/
structure DbRow where
  serial : Nat
  filename : String
  headers : Json
  body : Json
  query : Json
  created_at : Nat

/-- The database: rows in insertion order and the SERIAL counter. -/
structure Database where
  rows : List DbRow
  nextSerial : Nat

/-- The empty database (after the idempotent CREATE TABLE IF NOT EXISTS). -/
def emptyDb : Database := ⟨[], 1⟩

/-- The row INSERT of lines 93-96 builds.  `headers`, `body`, `query` are
stringified by the source and parsed back by PostgreSQL into JSONB, which
composes to the identity on structured values. -/
def dbRowOf (serial : Nat) (e : SaveEvent) : DbRow :=
  ⟨serial, makeFilename e.t1, e.payload.headers, e.payload.body,
   e.payload.query, e.now⟩

/-- The database-backend save (lines 80-96, database branch): INSERT one
row.  The schema (lines 26-36) has no UNIQUE constraint on `filename`, so
the insert succeeds regardless of duplicates.  Returns the new state and
the filename. -/
def dbSave (db : Database) (e : SaveEvent) : Database × String :=
  (⟨db.rows ++ [dbRowOf db.nextSerial e], db.nextSerial + 1⟩,
   makeFilename e.t1)

/-- First row matching a filename, in insertion order — the `rows[0]` of
the un-ordered SELECT at lines 199-202. -/
def findRow : List DbRow → String → Option DbRow
  | [], _ => none
  | r :: rest, fn => if r.filename = fn then some r else findRow rest fn

/-- The database-backend read path of GET /logs/:filename (lines 197-254):
SELECT by filename, 404 on zero rows, otherwise render the first row's
structured columns. -/
def dbGet (db : Database) (filename : String) : GetResult :=
  match findRow db.rows filename with
  | none => .notFound
  | some row => .render (some row.headers) (some row.body) (some row.query)

/-- Descending insertion by `created_at`, modelling ORDER BY created_at
DESC (line 132). -/
def insertRowDesc (r : DbRow) : List DbRow → List DbRow
  | [] => [r]
  | x :: xs => if x.created_at ≤ r.created_at then r :: x :: xs
               else x :: insertRowDesc r xs

/-- Sorting rows by `created_at` descending. -/
def sortRowsDesc : List DbRow → List DbRow
  | [] => []
  | x :: xs => insertRowDesc x (sortRowsDesc xs)

/-- The database-backend listing (lines 131-134): SELECT filename ORDER BY
created_at DESC. -/
def dbList (db : Database) : List String :=
  (sortRowsDesc db.rows).map fun r => r.filename

/-- Which backend is active (`isProduction && pool`). -/
inductive Backend where
  | file : Backend
  | database : Backend

/-- The `storage` field of the success response (line 112). -/
def storageName : Backend → String
  | .file => "file"
  | .database => "database"

/-- An HTTP response: status code and JSON body. -/
structure HttpResponse where
  statusCode : Nat
  body : Json

/-- The POST /webhook handler (lines 79-122).  `writeFailure = some msg`
models the underlying write throwing an error with message `msg` (caught at
line 114); `none` models a successful write. -/
def postWebhook (b : Backend) (fs : FileSystem) (db : Database)
    (e : SaveEvent) (writeFailure : Option String) :
    FileSystem × Database × HttpResponse :=
  match writeFailure with
  | some msg =>
    (fs, db,
     ⟨500, .obj [("status", .str "error"),
                 ("message", .str "Failed to save webhook"),
                 ("error", .str msg)]⟩)
  | none =>
    let ok : HttpResponse :=
      ⟨200, .obj [("status", .str "success"),
                  ("message", .str "Webhook received and logged"),
                  ("timestamp", .str e.t2),
                  ("storage", .str (storageName b))]⟩
    match b with
    | .file => ((fileSave fs e).1, db, ok)
    | .database => (fs, (dbSave db e).1, ok)

/-- The top-level field names of a JSON object response body. -/
def jsonKeys : Json → List String
  | .obj fields => fields.map fun f => f.1
  | _ => []

/-- Replaying a sequence of webhook arrivals against the file backend. -/
def fileReplay : List SaveEvent → FileSystem → FileSystem
  | [], fs => fs
  | e :: rest, fs => fileReplay rest (fileSave fs e).1

/-- Replaying a sequence of webhook arrivals against the database
backend. -/
def dbReplay : List SaveEvent → Database → Database
  | [], db => db
  | e :: rest, db => dbReplay rest (dbSave db e).1

/-- The absolute path a save writes to. -/
def savePath (e : SaveEvent) : List String :=
  pathJoin logsDir (makeFilename e.t1)

/-- The filesystem entry a save creates. -/
def saveEntry (e : SaveEvent) : List String × JsonDoc :=
  (savePath e, jsonStringify (logData e.t2 e.payload))

/-- The rows a sequence of saves inserts, starting from a SERIAL value. -/
def dbRowsFrom : Nat → List SaveEvent → List DbRow
  | _, [] => []
  | serial, e :: rest => dbRowOf serial e :: dbRowsFrom (serial + 1) rest

/-- Concrete scenario data: a first payload. -/
def payloadA : Payload := ⟨.str "HA", .str "BA", .str "QA"⟩

/-- Concrete scenario data: a second, different payload. -/
def payloadB : Payload := ⟨.str "HB", .str "BB", .str "QB"⟩

/-- A concrete receipt timestamp. -/
def timeA : String := "2025-01-01T00:00:00.000Z"

/-- A strictly later receipt timestamp. -/
def timeB : String := "2025-01-01T00:00:01.000Z"

/-- A first arrival at `timeA`. -/
def eventA : SaveEvent := ⟨timeA, timeA, 100, payloadA⟩

/-- A second arrival within the same identifier-granularity window as
`eventA` (identical derived identifier), carrying a different payload. -/
def eventA2 : SaveEvent := ⟨timeA, timeA, 101, payloadB⟩

/-- An arrival at the later `timeB`. -/
def eventB : SaveEvent := ⟨timeB, timeB, 101, payloadB⟩

/-- An arrival whose two clock reads differ: the millisecond ticked
between the `new Date()` of line 80 and the `new Date()` of line 84. -/
def eventMix : SaveEvent := ⟨timeA, "2025-01-01T00:00:00.001Z", 100, payloadA⟩

/-- An arrival whose identifier is lexicographically high but whose
database `created_at` is low. -/
def eventHi : SaveEvent := ⟨"2025-01-02T00:00:00.000Z", "2025-01-02T00:00:00.000Z", 1, payloadA⟩

/-- An arrival whose identifier is lexicographically low but whose
database `created_at` is high (a clock that stepped backwards between the
two requests). -/
def eventLo : SaveEvent := ⟨"2025-01-01T00:00:00.000Z", "2025-01-01T00:00:00.000Z", 2, payloadB⟩

/-- A logs directory holding one webhook file, one stray `.json` file and
one non-`.json` file. -/
def strayFs : FileSystem :=
  ⟨[(logsDir ++ ["webhook-A.json"], .wellFormed .null),
    (logsDir ++ ["other.json"], .wellFormed .null),
    (logsDir ++ ["notes.txt"], .wellFormed .null)]⟩

/-- A filesystem holding a file outside the logs directory, at
`path.join(dirname, 'secret.json')`. -/
def outsideFs : FileSystem :=
  ⟨[(dirname ++ ["secret.json"], .wellFormed (.str "secret"))]⟩

/-- A requested identifier carrying a path-traversal segment. -/
def traversalName : String := "../secret.json"

/-- A logs directory whose single webhook file holds ill-formed JSON. -/
def corruptFs : FileSystem :=
  ⟨[(logsDir ++ ["webhook-bad.json"], .illFormed "not-json")]⟩

/-! ### Order facts about the string comparison used by `sort()` -/

theorem listLtB_irrefl : ∀ l : List Char, listLtB l l = false
  | [] => rfl
  | c :: rest => by
    simp [listLtB, if_neg (lt_irrefl c), listLtB_irrefl rest]

theorem listLtB_trans (a : List Char) :
    ∀ b c, listLtB a b = true → listLtB b c = true → listLtB a c = true := by
  induction a with
  | nil =>
    intro b c h1 h2
    cases c with
    | nil => cases b <;> simp [listLtB] at h2
    | cons _ _ => simp [listLtB]
  | cons x xs ih =>
    intro b c h1 h2
    cases b with
    | nil => simp [listLtB] at h1
    | cons y ys =>
      cases c with
      | nil => simp [listLtB] at h2
      | cons z zs =>
        simp only [listLtB] at h1 h2 ⊢
        by_cases hxy : x < y
        · by_cases hyz : y < z
          · simp [lt_trans hxy hyz]
          · rw [if_neg hyz] at h2
            by_cases hzy : z < y
            · simp [hzy] at h2
            · have hy : y = z := le_antisymm (not_lt.mp hzy) (not_lt.mp hyz)
              simp [hy ▸ hxy]
        · rw [if_neg hxy] at h1
          by_cases hyx : y < x
          · simp [hyx] at h1
          · rw [if_neg hyx] at h1
            have hx : x = y := le_antisymm (not_lt.mp hyx) (not_lt.mp hxy)
            subst hx
            by_cases hxz : x < z
            · simp [hxz]
            · rw [if_neg hxz] at h2 ⊢
              by_cases hzx : z < x
              · simp [hzx] at h2
              · rw [if_neg hzx] at h2 ⊢
                exact ih ys zs h1 h2

theorem strLtB_trans {a b c : String} (h1 : strLtB a b = true)
    (h2 : strLtB b c = true) : strLtB a c = true :=
  listLtB_trans a.data b.data c.data h1 h2

theorem strLtB_irrefl (a : String) : strLtB a a = false :=
  listLtB_irrefl a.data

theorem strLtB_asymm {a b : String} (h : strLtB a b = true) :
    strLtB b a = false := by
  cases hba : strLtB b a with
  | false => rfl
  | true =>
    have := strLtB_trans h hba
    rw [strLtB_irrefl] at this
    exact absurd this (by simp)

theorem strLtB_ne {a b : String} (h : strLtB a b = true) : a ≠ b := by
  intro he
  subst he
  rw [strLtB_irrefl] at h
  exact absurd h (by simp)

theorem strictIncrStr_tail {x : String} {xs : List String}
    (h : strictIncrStr (x :: xs) = true) : strictIncrStr xs = true := by
  cases xs with
  | nil => rfl
  | cons y ys =>
    have := (Bool.and_eq_true _ _).mp h
    exact this.2

theorem strictIncrStr_head {x : String} {xs : List String}
    (h : strictIncrStr (x :: xs) = true) : ∀ y ∈ xs, strLtB x y = true := by
  induction xs generalizing x with
  | nil => intro y hy; cases hy
  | cons z zs ih =>
    intro y hy
    have h' := (Bool.and_eq_true _ _).mp h
    cases hy with
    | head => exact h'.1
    | tail _ hy' => exact strLtB_trans h'.1 (ih h'.2 y hy')

theorem strictIncrStr_pairwise :
    ∀ {l : List String}, strictIncrStr l = true →
      l.Pairwise fun a b => strLtB a b = true
  | [], _ => List.Pairwise.nil
  | _ :: _, h =>
    List.Pairwise.cons (strictIncrStr_head h)
      (strictIncrStr_pairwise (strictIncrStr_tail h))

theorem strictIncrNat_tail {x : Nat} {xs : List Nat}
    (h : strictIncrNat (x :: xs) = true) : strictIncrNat xs = true := by
  cases xs with
  | nil => rfl
  | cons y ys => exact ((Bool.and_eq_true _ _).mp h).2

theorem strictIncrNat_head {x : Nat} {xs : List Nat}
    (h : strictIncrNat (x :: xs) = true) : ∀ y ∈ xs, x < y := by
  induction xs generalizing x with
  | nil => intro y hy; cases hy
  | cons z zs ih =>
    intro y hy
    have h' := (Bool.and_eq_true _ _).mp h
    have hxz : x < z := of_decide_eq_true h'.1
    cases hy with
    | head => exact hxz
    | tail _ hy' => exact lt_trans hxz (ih h'.2 y hy')

theorem strictIncrNat_pairwise :
    ∀ {l : List Nat}, strictIncrNat l = true → l.Pairwise (· < ·)
  | [], _ => List.Pairwise.nil
  | _ :: _, h =>
    List.Pairwise.cons (strictIncrNat_head h)
      (strictIncrNat_pairwise (strictIncrNat_tail h))

/-! ### Behaviour of the `sort()` model on already-ordered inputs -/

theorem insertAsc_append {r : String} :
    ∀ {m : List String}, (∀ y ∈ m, strLtB y r = true) →
      insertAsc r m = m ++ [r]
  | [], _ => rfl
  | x :: xs, h => by
    have hx : strLtB x r = true := h x (List.mem_cons_self x xs)
    have hle : strLeB r x = false := by simp [strLeB, hx]
    simp [insertAsc, hle,
      insertAsc_append fun y hy => h y (List.mem_cons_of_mem x hy)]

theorem sortAsc_pairwise_gt :
    ∀ {m : List String}, m.Pairwise (fun a b => strLtB b a = true) →
      sortAsc m = m.reverse
  | [], _ => rfl
  | x :: xs, h => by
    have h' := List.pairwise_cons.mp h
    have ihs : sortAsc xs = xs.reverse := sortAsc_pairwise_gt h'.2
    simp only [sortAsc, ihs]
    rw [insertAsc_append fun y hy => h'.1 y (List.mem_reverse.mp hy)]
    simp

theorem sortAsc_reverse_of_incr {l : List String}
    (h : l.Pairwise fun a b => strLtB a b = true) : sortAsc l.reverse = l := by
  rw [sortAsc_pairwise_gt (by rw [List.pairwise_reverse]; exact h)]
  exact l.reverse_reverse

theorem insertRowDesc_append {r : DbRow} :
    ∀ {m : List DbRow}, (∀ x ∈ m, r.created_at < x.created_at) →
      insertRowDesc r m = m ++ [r]
  | [], _ => rfl
  | x :: xs, h => by
    have hx : ¬ (x.created_at ≤ r.created_at) :=
      not_le.mpr (h x (List.mem_cons_self x xs))
    simp [insertRowDesc, hx,
      insertRowDesc_append fun y hy => h y (List.mem_cons_of_mem x hy)]

theorem sortRowsDesc_of_incr :
    ∀ {m : List DbRow}, m.Pairwise (fun a b => a.created_at < b.created_at) →
      sortRowsDesc m = m.reverse
  | [], _ => rfl
  | x :: xs, h => by
    have h' := List.pairwise_cons.mp h
    have ihs : sortRowsDesc xs = xs.reverse := sortRowsDesc_of_incr h'.2
    simp only [sortRowsDesc, ihs]
    rw [insertRowDesc_append fun y hy => h'.1 y (List.mem_reverse.mp hy)]
    simp

theorem insertAsc_chain {r : String} :
    ∀ {m : List String},
      List.Chain' (fun a b => strLeB a b = true) m →
      List.Chain' (fun a b => strLeB a b = true) (insertAsc r m)
  | [], _ => List.chain'_singleton r
  | x :: xs, h => by
    by_cases hc : strLeB r x = true
    · simp only [insertAsc, if_pos hc]
      exact List.Chain'.cons hc h
    · have hxr : strLeB x r = true := by
        have h1 : strLtB x r = true := by
          cases hv : strLtB x r with
          | true => rfl
          | false => exact absurd (by simp [strLeB, hv]) hc
        simp [strLeB, strLtB_asymm h1]
      simp only [insertAsc, if_neg hc]
      cases xs with
      | nil =>
        simp only [insertAsc]
        exact List.Chain'.cons hxr (List.chain'_singleton r)
      | cons y ys =>
        have hh := List.chain'_cons.mp h
        have ih := insertAsc_chain (r := r) hh.2
        by_cases hry : strLeB r y = true
        · simp only [insertAsc, if_pos hry] at ih ⊢
          exact List.Chain'.cons hxr ih
        · simp only [insertAsc, if_neg hry] at ih ⊢
          exact List.Chain'.cons hh.1 ih

theorem sortAsc_chain :
    ∀ m : List String, List.Chain' (fun a b => strLeB a b = true) (sortAsc m)
  | [] => List.chain'_nil
  | _ :: xs => insertAsc_chain (sortAsc_chain xs)

theorem insertAsc_perm (r : String) :
    ∀ m : List String, (insertAsc r m).Perm (r :: m)
  | [] => List.Perm.refl _
  | x :: xs => by
    by_cases hc : strLeB r x = true
    · simp [insertAsc, hc]
    · simp only [insertAsc, if_neg hc]
      exact ((insertAsc_perm r xs).cons x).trans (List.Perm.swap r x xs)

theorem sortAsc_perm : ∀ m : List String, (sortAsc m).Perm m
  | [] => List.Perm.refl _
  | x :: xs =>
    (insertAsc_perm x (sortAsc xs)).trans ((sortAsc_perm xs).cons x)

/-! ### Path and filename facts -/

theorem splitSlash_no_slash :
    ∀ {cs : List Char}, ('/' : Char) ∉ cs → splitSlash cs = [cs]
  | [], _ => rfl
  | c :: rest, h => by
    have hr : splitSlash rest = [rest] :=
      splitSlash_no_slash fun hm => h (List.mem_cons_of_mem _ hm)
    have hc : c ≠ '/' := fun hc => h (hc ▸ List.mem_cons_self c rest)
    simp [splitSlash, hr, hc]

theorem pathJoin_single {f : String} (h : ('/' : Char) ∉ f.data)
    (h1 : f ≠ "") (h2 : f ≠ ".") (h3 : f ≠ "..") (base : List String) :
    pathJoin base f = base ++ [f] := by
  unfold pathJoin
  rw [splitSlash_no_slash h]
  show normAppend base [f] = base ++ [f]
  simp [normAppend, h1, h2, h3]

theorem makeFilename_data (t : String) :
    (makeFilename t).data =
      "webhook-".data ++ ((replaceColons t).data ++ ".json".data) := by
  simp [makeFilename, String.data_append]

theorem makeFilename_ne_empty (t : String) : makeFilename t ≠ "" := by
  intro h
  have := congrArg String.data h
  rw [makeFilename_data] at this
  have hw : "webhook-".data = 'w' :: "ebhook-".data := rfl
  rw [hw] at this
  simp at this

theorem makeFilename_ne_dot (t : String) : makeFilename t ≠ "." := by
  intro h
  have := congrArg String.data h
  rw [makeFilename_data] at this
  have hw : "webhook-".data = 'w' :: "ebhook-".data := rfl
  rw [hw] at this
  simp at this

theorem makeFilename_ne_dotdot (t : String) : makeFilename t ≠ ".." := by
  intro h
  have := congrArg String.data h
  rw [makeFilename_data] at this
  have hw : "webhook-".data = 'w' :: "ebhook-".data := rfl
  rw [hw] at this
  simp at this

theorem slash_not_mem_replaceColons {t : String} (h : ('/' : Char) ∉ t.data) :
    ('/' : Char) ∉ (replaceColons t).data := by
  intro hm
  simp only [replaceColons, List.mem_map] at hm
  obtain ⟨c, hc, hce⟩ := hm
  by_cases h' : c = ':'
  · rw [if_pos h'] at hce
    exact absurd hce (by decide)
  · rw [if_neg h'] at hce
    exact h (hce ▸ hc)

theorem slash_not_mem_makeFilename {t : String} (h : ('/' : Char) ∉ t.data) :
    ('/' : Char) ∉ (makeFilename t).data := by
  rw [makeFilename_data]
  simp only [List.mem_append]
  rintro (hm | hm | hm)
  · exact absurd hm (by decide)
  · exact slash_not_mem_replaceColons h hm
  · exact absurd hm (by decide)

theorem savePath_eq {e : SaveEvent} (h : ('/' : Char) ∉ e.t1.data) :
    savePath e = logsDir ++ [makeFilename e.t1] :=
  pathJoin_single (slash_not_mem_makeFilename h) (makeFilename_ne_empty _)
    (makeFilename_ne_dot _) (makeFilename_ne_dotdot _) logsDir

theorem listStartsWith_append : ∀ (p x : List Char),
    listStartsWith (p ++ x) p = true
  | [], x => by cases x <;> rfl
  | c :: cs, x => by simp [listStartsWith, listStartsWith_append cs x]

theorem makeFilename_endsWith (t : String) :
    strEndsWith (makeFilename t) ".json" = true := by
  unfold strEndsWith
  rw [makeFilename_data]
  have : ("webhook-".data ++ ((replaceColons t).data ++ ".json".data)).reverse =
      ".json".data.reverse ++
        ((replaceColons t).data.reverse ++ "webhook-".data.reverse) := by
    simp
  rw [this]
  exact listStartsWith_append _ _

/-! ### Filesystem lookup and replay facts -/

theorem findEntry_cons_self (p : List String) (d : JsonDoc)
    (l : List (List String × JsonDoc)) : findEntry ((p, d) :: l) p = some d := by
  simp [findEntry]

theorem findEntry_cons_ne {p q : List String} (h : p ≠ q) (d : JsonDoc)
    (l : List (List String × JsonDoc)) :
    findEntry ((p, d) :: l) q = findEntry l q := by
  simp [findEntry, h]

theorem findEntry_filter_ne {p q : List String} (h : q ≠ p) :
    ∀ l : List (List String × JsonDoc),
      findEntry (l.filter fun e => e.1 ≠ p) q = findEntry l q
  | [] => rfl
  | e :: rest => by
    rw [List.filter_cons]
    by_cases hp : e.1 = p
    · have hq : e.1 ≠ q := fun hh => h (hh.symm.trans hp)
      rw [if_neg (by simp [hp]), findEntry_filter_ne h rest]
      show findEntry rest q = findEntry (e :: rest) q
      simp [findEntry, hq]
    · rw [if_pos (by simp [hp])]
      show findEntry (e :: _) q = findEntry (e :: rest) q
      simp only [findEntry]
      rw [findEntry_filter_ne h rest]

theorem fsWrite_lookup_self (fs : FileSystem) (p : List String) (d : JsonDoc) :
    findEntry (fsWrite fs p d).files p = some d :=
  findEntry_cons_self p d _

theorem fsWrite_lookup_ne {q p : List String} (h : q ≠ p) (fs : FileSystem)
    (d : JsonDoc) : findEntry (fsWrite fs p d).files q = findEntry fs.files q := by
  show findEntry ((p, d) :: _) q = _
  rw [findEntry_cons_ne (Ne.symm h), findEntry_filter_ne h]

theorem fileSave_fst (fs : FileSystem) (e : SaveEvent) :
    (fileSave fs e).1 =
      fsWrite fs (savePath e) (jsonStringify (logData e.t2 e.payload)) := rfl

theorem fileSave_snd (fs : FileSystem) (e : SaveEvent) :
    (fileSave fs e).2 = makeFilename e.t1 := rfl

theorem fileReplay_lookup_none :
    ∀ (evs : List SaveEvent) (fs : FileSystem) {q : List String},
      findEntry fs.files q = none → (∀ e ∈ evs, q ≠ savePath e) →
      findEntry (fileReplay evs fs).files q = none
  | [], _, _, h0, _ => h0
  | e :: rest, fs, q, h0, h => by
    have hq : q ≠ savePath e := h e (List.mem_cons_self _ _)
    have hstep : findEntry (fileSave fs e).1.files q = none := by
      rw [fileSave_fst, fsWrite_lookup_ne hq]
      exact h0
    exact fileReplay_lookup_none rest _ hstep
      fun e' he' => h e' (List.mem_cons_of_mem _ he')

theorem fileReplay_files :
    ∀ (evs : List SaveEvent) (fs : FileSystem),
      (∀ e ∈ evs, ∀ ent ∈ fs.files, ent.1 ≠ savePath e) →
      (evs.map savePath).Pairwise (· ≠ ·) →
      (fileReplay evs fs).files = (evs.map saveEntry).reverse ++ fs.files
  | [], fs, _, _ => by simp [fileReplay]
  | e :: rest, fs, hfresh, hpw => by
    have hfe : ∀ ent ∈ fs.files, ent.1 ≠ savePath e :=
      fun ent h => hfresh e (List.mem_cons_self _ _) ent h
    have hstep : (fileSave fs e).1.files = saveEntry e :: fs.files := by
      rw [fileSave_fst]
      show (savePath e, _) :: fs.files.filter _ = _
      rw [List.filter_eq_self.mpr fun ent hent => by
        simpa using hfe ent hent]
      rfl
    rw [show (e :: rest).map savePath = savePath e :: rest.map savePath from rfl]
      at hpw
    have hpw' := List.pairwise_cons.mp hpw
    have hfresh' : ∀ e' ∈ rest, ∀ ent ∈ (fileSave fs e).1.files,
        ent.1 ≠ savePath e' := by
      intro e' he' ent hent
      rw [hstep] at hent
      cases hent with
      | head => exact hpw'.1 (savePath e') (List.mem_map_of_mem savePath he')
      | tail _ htl => exact hfresh e' (List.mem_cons_of_mem _ he') ent htl
    have ih := fileReplay_files rest (fileSave fs e).1 hfresh' hpw'.2
    show (fileReplay rest (fileSave fs e).1).files = _
    rw [ih, hstep]
    simp

theorem readdir_entries :
    ∀ (m : List SaveEvent), (∀ e ∈ m, ('/' : Char) ∉ e.t1.data) →
      readdir ⟨m.map saveEntry⟩ = m.map fun e => makeFilename e.t1
  | [], _ => rfl
  | e :: rest, h => by
    have hp : savePath e = logsDir ++ [makeFilename e.t1] :=
      savePath_eq (h e (List.mem_cons_self _ _))
    have ih := readdir_entries rest fun e' he' => h e' (List.mem_cons_of_mem _ he')
    unfold readdir at ih ⊢
    simp only [List.map_cons, List.filterMap_cons]
    rw [show (saveEntry e).1 = logsDir ++ [makeFilename e.t1] from hp,
      List.dropLast_concat, if_pos rfl, List.getLast?_concat, ih]

/-! ### Database replay facts -/

theorem dbSave_rows (db : Database) (e : SaveEvent) :
    (dbSave db e).1.rows = db.rows ++ [dbRowOf db.nextSerial e] := rfl

theorem dbReplay_rows :
    ∀ (evs : List SaveEvent) (db : Database),
      (dbReplay evs db).rows = db.rows ++ dbRowsFrom db.nextSerial evs
  | [], db => by simp [dbReplay, dbRowsFrom]
  | e :: rest, db => by
    show (dbReplay rest (dbSave db e).1).rows = _
    rw [dbReplay_rows rest]
    simp [dbSave, dbRowsFrom]

theorem dbRowsFrom_filename :
    ∀ (s : Nat) (evs : List SaveEvent),
      (dbRowsFrom s evs).map (fun r => r.filename) =
        evs.map fun e => makeFilename e.t1
  | _, [] => rfl
  | s, e :: rest => by
    simp [dbRowsFrom, dbRowOf, dbRowsFrom_filename (s + 1) rest]

theorem dbRowsFrom_created :
    ∀ (s : Nat) (evs : List SaveEvent),
      (dbRowsFrom s evs).map (fun r => r.created_at) = evs.map fun e => e.now
  | _, [] => rfl
  | s, e :: rest => by
    simp [dbRowsFrom, dbRowOf, dbRowsFrom_created (s + 1) rest]

theorem dbRowsFrom_pairwise {evs : List SaveEvent}
    (h : strictIncrNat (evs.map fun e => e.now) = true) (s : Nat) :
    (dbRowsFrom s evs).Pairwise fun a b => a.created_at < b.created_at := by
  have h2 : ((dbRowsFrom s evs).map fun r => r.created_at).Pairwise (· < ·) := by
    rw [dbRowsFrom_created]
    exact strictIncrNat_pairwise h
  exact List.pairwise_map.mp h2

theorem findRow_none :
    ∀ {l : List DbRow} {f : String}, (∀ r ∈ l, r.filename ≠ f) →
      findRow l f = none
  | [], _, _ => rfl
  | r :: rest, f, h => by
    have hr : r.filename ≠ f := h r (List.mem_cons_self _ _)
    simp [findRow, hr, findRow_none fun r' hr' => h r' (List.mem_cons_of_mem _ hr')]

theorem findRow_append_none {l₁ : List DbRow} {f : String}
    (h : findRow l₁ f = none) (l₂ : List DbRow) :
    findRow (l₁ ++ l₂) f = findRow l₂ f := by
  induction l₁ with
  | nil => rfl
  | cons r rest ih =>
    by_cases hr : r.filename = f
    · simp [findRow, hr] at h
    · simp only [findRow, hr, if_neg hr, List.cons_append] at h ⊢
      exact ih h

theorem dbRowsFrom_mem_filename {r : DbRow} :
    ∀ {s : Nat} {evs : List SaveEvent}, r ∈ dbRowsFrom s evs →
      ∃ e ∈ evs, r.filename = makeFilename e.t1 := by
  intro s evs h
  have : r.filename ∈ (dbRowsFrom s evs).map fun r => r.filename :=
    List.mem_map_of_mem _ h
  rw [dbRowsFrom_filename] at this
  obtain ⟨e, he, hfn⟩ := List.mem_map.mp this
  exact ⟨e, he, hfn.symm⟩

/-! ### The claims -/

/-- C1: for every valid payload, `save` on the record built from it
followed by `get` on the returned identifier yields the payload's headers,
body and query structurally unchanged, on the file backend and on the
database backend (for a database whose rows do not already carry the newly
derived identifier; the colliding case is the subject of C4). -/
theorem claim_C1 (fs : FileSystem) (db : Database) (e : SaveEvent)
    (hfresh : ∀ r ∈ db.rows, r.filename ≠ makeFilename e.t1) :
    fileGet (fileSave fs e).1 (fileSave fs e).2 =
      .render (some e.payload.headers) (some e.payload.body)
        (some e.payload.query) ∧
    dbGet (dbSave db e).1 (dbSave db e).2 =
      .render (some e.payload.headers) (some e.payload.body)
        (some e.payload.query) := by
  constructor
  · have hl : findEntry (fileSave fs e).1.files
        (pathJoin logsDir (fileSave fs e).2) =
        some (jsonStringify (logData e.t2 e.payload)) :=
      fsWrite_lookup_self fs (savePath e) _
    unfold fileGet
    rw [hl]
    rfl
  · have hnone : findRow db.rows (makeFilename e.t1) = none :=
      findRow_none hfresh
    unfold dbGet
    rw [show (dbSave db e).2 = makeFilename e.t1 from rfl, dbSave_rows,
      findRow_append_none hnone]
    rw [show findRow [dbRowOf db.nextSerial e] (makeFilename e.t1) =
      some (dbRowOf db.nextSerial e) from by simp [findRow, dbRowOf]]
    rfl

/-- C1 witness: the round trip evaluated on a concrete payload against the
empty stores. -/
theorem claim_C1_witness :
    fileGet (fileSave emptyFs eventA).1 (fileSave emptyFs eventA).2 =
      .render (some payloadA.headers) (some payloadA.body)
        (some payloadA.query) ∧
    dbGet (dbSave emptyDb eventA).1 (dbSave emptyDb eventA).2 =
      .render (some payloadA.headers) (some payloadA.body)
        (some payloadA.query) :=
  claim_C1 emptyFs emptyDb eventA fun r hr => absurd hr (List.not_mem_nil r)

/-- C3 (amended): `get` on an identifier that was never saved fails with
NotFound on both backends — on the file backend provided the identifier's
path resolution against the logs directory is not the file of any saved
record (an identifier containing traversal segments can alias a saved
file; see the counterexample). -/
theorem claim_C3 (evs devs : List SaveEvent) (f g : String)
    (hfile : ∀ e ∈ evs, pathJoin logsDir f ≠ savePath e)
    (hdb : ∀ e ∈ devs, g ≠ makeFilename e.t1) :
    fileGet (fileReplay evs emptyFs) f = .notFound ∧
    dbGet (dbReplay devs emptyDb) g = .notFound := by
  constructor
  · unfold fileGet
    rw [fileReplay_lookup_none evs emptyFs rfl hfile]
  · unfold dbGet
    rw [dbReplay_rows]
    have : findRow ((emptyDb.rows) ++ dbRowsFrom emptyDb.nextSerial devs) g =
        none := by
      rw [findRow_append_none (by rfl)]
      apply findRow_none
      intro r hr
      obtain ⟨e, he, hfn⟩ := dbRowsFrom_mem_filename hr
      rw [hfn]
      exact fun hc => hdb e he hc.symm
    rw [this]

/-- C3 witness: a never-saved plain identifier is NotFound on both
backends after one save. -/
theorem claim_C3_witness :
    fileGet (fileReplay [eventA] emptyFs) "webhook-nope.json" = .notFound ∧
    dbGet (dbReplay [eventA] emptyDb) "webhook-nope.json" = .notFound :=
  claim_C3 [eventA] [eventA] "webhook-nope.json" "webhook-nope.json"
    (by decide) (by decide)

/-- C3 counterexample: on the file backend an identifier carrying a
traversal segment, never saved (it differs from the identifier the save
returned), still resolves to the saved file and is served rather than
rejected with NotFound. -/
theorem claim_C3_cex :
    fileGet (fileReplay [eventA] emptyFs)
        "x/../webhook-2025-01-01T00-00-00.000Z.json" =
      .render (some payloadA.headers) (some payloadA.body)
        (some payloadA.query) ∧
    "x/../webhook-2025-01-01T00-00-00.000Z.json" ≠ (fileSave emptyFs eventA).2 ∧
    fileGet (fileReplay [eventA] emptyFs)
        "x/../webhook-2025-01-01T00-00-00.000Z.json" ≠ .notFound := by
  refine ⟨rfl, by decide, ?_⟩
  rw [show fileGet (fileReplay [eventA] emptyFs)
      "x/../webhook-2025-01-01T00-00-00.000Z.json" =
      .render (some payloadA.headers) (some payloadA.body)
        (some payloadA.query) from rfl]
  simp

/-- C4: the schema of `webhook_logs` (lines 26-36) has no UNIQUE
constraint on `filename`, so a second save within the same
identifier-granularity window succeeds (HTTP 200), is assigned the
identical identifier, inserts a second row, and `get` on that identifier
returns only the first record — the second is not individually
retrievable, contradicting the specified collision behaviour. -/
theorem claim_C4 :
    (dbSave (dbSave emptyDb eventA).1 eventA2).2 = (dbSave emptyDb eventA).2 ∧
    (postWebhook .database emptyFs (dbSave emptyDb eventA).1 eventA2
      none).2.2.statusCode = 200 ∧
    (dbSave (dbSave emptyDb eventA).1 eventA2).1.rows.length = 2 ∧
    dbGet (dbSave (dbSave emptyDb eventA).1 eventA2).1
        (dbSave emptyDb eventA).2 =
      .render (some payloadA.headers) (some payloadA.body)
        (some payloadA.query) ∧
    payloadB.headers ≠ payloadA.headers := by
  refine ⟨rfl, rfl, rfl, rfl, ?_⟩
  simp [payloadA, payloadB]

/-- C2 (amended): starting from an empty store, after N successful saves
whose derived identifiers strictly increase in arrival order — and, for
the database backend, whose server-assigned creation timestamps strictly
increase — `list` returns exactly N entries, the saved identifiers in
descending order, on both backends. -/
theorem claim_C2 (evs : List SaveEvent)
    (hslash : ∀ e ∈ evs, ('/' : Char) ∉ e.t1.data)
    (hids : strictIncrStr (evs.map fun e => makeFilename e.t1) = true)
    (hnow : strictIncrNat (evs.map fun e => e.now) = true) :
    fileList (fileReplay evs emptyFs) =
      (evs.map fun e => makeFilename e.t1).reverse ∧
    dbList (dbReplay evs emptyDb) =
      (evs.map fun e => makeFilename e.t1).reverse ∧
    (fileList (fileReplay evs emptyFs)).length = evs.length ∧
    (dbList (dbReplay evs emptyDb)).length = evs.length := by
  have hpwfn : (evs.map fun e => makeFilename e.t1).Pairwise
      (fun a b => strLtB a b = true) := strictIncrStr_pairwise hids
  have hfile : fileList (fileReplay evs emptyFs) =
      (evs.map fun e => makeFilename e.t1).reverse := by
    have hpwpath : (evs.map savePath).Pairwise (· ≠ ·) := by
      have h1 : evs.Pairwise fun a b =>
          strLtB (makeFilename a.t1) (makeFilename b.t1) = true :=
        List.pairwise_map.mp hpwfn
      apply List.pairwise_map.mpr
      apply List.Pairwise.imp_of_mem ?_ h1
      intro a b ha hb hlt
      rw [savePath_eq (hslash a ha), savePath_eq (hslash b hb)]
      intro hc
      have := List.append_cancel_left hc
      have : makeFilename a.t1 = makeFilename b.t1 := by simpa using this
      exact strLtB_ne hlt this
    have hfiles : (fileReplay evs emptyFs).files =
        (evs.map saveEntry).reverse := by
      have := fileReplay_files evs emptyFs
        (fun e _ ent hent => absurd hent (List.not_mem_nil ent)) hpwpath
      simpa [emptyFs] using this
    have hrd : readdir (fileReplay evs emptyFs) =
        (evs.map fun e => makeFilename e.t1).reverse := by
      unfold readdir
      rw [hfiles, ← List.map_reverse]
      have := readdir_entries evs.reverse
        fun e he => hslash e (List.mem_reverse.mp he)
      unfold readdir at this
      rw [this, List.map_reverse]
    unfold fileList
    rw [hrd]
    rw [List.filter_eq_self.mpr ?_]
    · rw [sortAsc_reverse_of_incr hpwfn]
    · intro f hf
      obtain ⟨e, _, hfe⟩ :=
        List.mem_map.mp (List.mem_reverse.mp hf)
      rw [← hfe]
      exact makeFilename_endsWith e.t1
  have hdb : dbList (dbReplay evs emptyDb) =
      (evs.map fun e => makeFilename e.t1).reverse := by
    unfold dbList
    rw [dbReplay_rows]
    rw [show emptyDb.rows ++ dbRowsFrom emptyDb.nextSerial evs =
      dbRowsFrom 1 evs from rfl]
    rw [sortRowsDesc_of_incr (dbRowsFrom_pairwise hnow 1)]
    rw [List.map_reverse, dbRowsFrom_filename]
  refine ⟨hfile, hdb, ?_, ?_⟩
  · rw [hfile, List.length_reverse, List.length_map]
  · rw [hdb, List.length_reverse, List.length_map]

/-- C2 witness: two saves with increasing identifiers and clock produce
two entries in descending order on both backends. -/
theorem claim_C2_witness :
    fileList (fileReplay [eventA, eventB] emptyFs) =
      ([eventA, eventB].map fun e => makeFilename e.t1).reverse ∧
    dbList (dbReplay [eventA, eventB] emptyDb) =
      ([eventA, eventB].map fun e => makeFilename e.t1).reverse ∧
    (fileList (fileReplay [eventA, eventB] emptyFs)).length = 2 ∧
    (dbList (dbReplay [eventA, eventB] emptyDb)).length = 2 :=
  claim_C2 [eventA, eventB] (by decide) (by decide) (by decide)

/-- C2 counterexample: the unconditional claim fails.  Two successful
saves within the same identifier-granularity window leave the file backend
with a single entry (the second overwrote the first), and when the
identifiers do not increase with arrival order the database listing —
ordered by `created_at`, not by identifier — comes back ascending by
identifier. -/
theorem claim_C2_cex :
    (fileList (fileReplay [eventA, eventA2] emptyFs)).length = 1 ∧
    dbList (dbReplay [eventHi, eventLo] emptyDb) =
      ["webhook-2025-01-01T00-00-00.000Z.json",
       "webhook-2025-01-02T00-00-00.000Z.json"] ∧
    strLtB "webhook-2025-01-01T00-00-00.000Z.json"
      "webhook-2025-01-02T00-00-00.000Z.json" = true := by
  refine ⟨by decide, by decide, by decide⟩

/-- C5 (amended): the file-backend listing enumerates exactly the
directory entries whose names end in `.json` — whether or not they match
the `webhook-<identifier>.json` naming pattern — returns the full file
names without stripping the pattern, and sorts them descending
lexicographically. -/
theorem claim_C5 (fs : FileSystem) :
    (fileList fs).Perm ((readdir fs).filter fun f => strEndsWith f ".json") ∧
    List.Chain' (fun a b => strLeB b a = true) (fileList fs) := by
  constructor
  · unfold fileList
    exact (List.reverse_perm _).trans (sortAsc_perm _)
  · unfold fileList
    rw [List.chain'_reverse]
    exact List.Chain'.imp (fun a b h => h)
      (sortAsc_chain ((readdir fs).filter fun f => strEndsWith f ".json"))

/-- C5 counterexample: the claim as stated fails — the listing keeps a
stray `.json` entry that does not match the `webhook-` pattern and
returns the webhook entry unstripped rather than as the bare
identifier. -/
theorem claim_C5_cex :
    fileList strayFs = ["webhook-A.json", "other.json"] ∧
    listStartsWith "other.json".data "webhook-".data = false ∧
    "webhook-A.json" ≠ "A" := by
  refine ⟨by decide, by decide, by decide⟩

/-- C6: a POST /webhook whose save succeeds is answered 200 with a JSON
body holding exactly the fields status (= success), message, timestamp and
storage; one whose save fails is answered 500 with exactly status
(= error), message and error, the error field carrying exactly the storage
error's message. -/
theorem claim_C6 (b : Backend) (fs : FileSystem) (db : Database)
    (e : SaveEvent) (wf : Option String) :
    (wf = none →
      (postWebhook b fs db e wf).2.2.statusCode = 200 ∧
      jsonKeys (postWebhook b fs db e wf).2.2.body =
        ["status", "message", "timestamp", "storage"] ∧
      jGet (postWebhook b fs db e wf).2.2.body "status" =
        some (.str "success")) ∧
    (∀ msg, wf = some msg →
      (postWebhook b fs db e wf).2.2.statusCode = 500 ∧
      jsonKeys (postWebhook b fs db e wf).2.2.body =
        ["status", "message", "error"] ∧
      jGet (postWebhook b fs db e wf).2.2.body "status" =
        some (.str "error") ∧
      jGet (postWebhook b fs db e wf).2.2.body "error" = some (.str msg)) := by
  constructor
  · rintro rfl
    cases b <;> exact ⟨rfl, rfl, rfl⟩
  · rintro msg rfl
    exact ⟨rfl, rfl, rfl, rfl⟩

/-- C6 witness: both branches evaluated concretely. -/
theorem claim_C6_witness :
    ((postWebhook .file emptyFs emptyDb eventA none).2.2.statusCode = 200 ∧
      jsonKeys (postWebhook .file emptyFs emptyDb eventA none).2.2.body =
        ["status", "message", "timestamp", "storage"] ∧
      jGet (postWebhook .file emptyFs emptyDb eventA none).2.2.body "status" =
        some (.str "success")) ∧
    ((postWebhook .file emptyFs emptyDb eventA (some "disk full")).2.2.statusCode
        = 500 ∧
      jsonKeys (postWebhook .file emptyFs emptyDb eventA
        (some "disk full")).2.2.body = ["status", "message", "error"] ∧
      jGet (postWebhook .file emptyFs emptyDb eventA
        (some "disk full")).2.2.body "status" = some (.str "error") ∧
      jGet (postWebhook .file emptyFs emptyDb eventA
        (some "disk full")).2.2.body "error" = some (.str "disk full")) :=
  ⟨(claim_C6 .file emptyFs emptyDb eventA none).1 rfl,
   (claim_C6 .file emptyFs emptyDb eventA (some "disk full")).2 "disk full" rfl⟩

/-- C7 (amended): the success acknowledgment carries the record's stored
timestamp — the second clock read, taken at line 84 just after the one the
identifier is derived from at line 80 — and the backend that handled the
request; the acknowledged timestamp equals the identifier's timestamp
exactly when the two clock reads coincide. -/
theorem claim_C7 (b : Backend) (fs : FileSystem) (db : Database)
    (e : SaveEvent) :
    jGet (postWebhook b fs db e none).2.2.body "timestamp" =
      some (.str e.t2) ∧
    jGet (postWebhook b fs db e none).2.2.body "storage" =
      some (.str (storageName b)) ∧
    (fileSave fs e).2 = makeFilename e.t1 ∧
    (e.t1 = e.t2 →
      jGet (postWebhook b fs db e none).2.2.body "timestamp" =
        some (.str e.t1)) := by
  cases b <;> exact ⟨rfl, rfl, rfl, fun h => by rw [h]; rfl⟩

/-- C7 witness: evaluated on a concrete event whose clock reads
coincide. -/
theorem claim_C7_witness :
    jGet (postWebhook .database emptyFs emptyDb eventA none).2.2.body
        "timestamp" = some (.str eventA.t2) ∧
    jGet (postWebhook .database emptyFs emptyDb eventA none).2.2.body
        "storage" = some (.str (storageName .database)) ∧
    (fileSave emptyFs eventA).2 = makeFilename eventA.t1 ∧
    jGet (postWebhook .database emptyFs emptyDb eventA none).2.2.body
        "timestamp" = some (.str eventA.t1) :=
  ⟨(claim_C7 .database emptyFs emptyDb eventA).1,
   (claim_C7 .database emptyFs emptyDb eventA).2.1,
   (claim_C7 .database emptyFs emptyDb eventA).2.2.1,
   (claim_C7 .database emptyFs emptyDb eventA).2.2.2 rfl⟩

/-- C7 counterexample: the identifier is derived from the clock read of
line 80, but the acknowledged timestamp is a second clock read taken at
line 84; when the clock ticks between the two reads the acknowledgment
does not carry the identifier's timestamp. -/
theorem claim_C7_cex :
    (fileSave emptyFs eventMix).2 = makeFilename timeA ∧
    jGet (postWebhook .file emptyFs emptyDb eventMix none).2.2.body
        "timestamp" ≠ some (.str timeA) := by
  refine ⟨rfl, ?_⟩
  intro h
  rw [show jGet (postWebhook .file emptyFs emptyDb eventMix none).2.2.body
      "timestamp" = some (.str "2025-01-01T00:00:00.001Z") from rfl] at h
  simp [timeA] at h

/-- C8: on the file backend, `get` on an identifier whose file exists but
holds ill-formed JSON yields the caught-parse-error 500 response, which is
a different outcome from the NotFound produced when the file is
missing. -/
theorem claim_C8 (fs fs2 : FileSystem) (f f2 s : String)
    (hbad : findEntry fs.files (pathJoin logsDir f) = some (.illFormed s))
    (hmiss : findEntry fs2.files (pathJoin logsDir f2) = none) :
    fileGet fs f =
      .readError ("Error reading log: " ++ ("Unexpected token in JSON: " ++ s)) ∧
    fileGet fs2 f2 = .notFound ∧
    ∀ m : String, GetResult.readError m ≠ .notFound := by
  refine ⟨?_, ?_, fun m h => nomatch h⟩
  · unfold fileGet
    rw [hbad]
    rfl
  · unfold fileGet
    rw [hmiss]

/-- C8 witness: a concrete corrupt file and a concrete missing file. -/
theorem claim_C8_witness :
    fileGet corruptFs "webhook-bad.json" =
      .readError
        ("Error reading log: " ++ ("Unexpected token in JSON: " ++ "not-json")) ∧
    fileGet emptyFs "webhook-nope.json" = .notFound ∧
    ∀ m : String, GetResult.readError m ≠ .notFound :=
  claim_C8 corruptFs emptyFs "webhook-bad.json" "webhook-nope.json" "not-json"
    rfl rfl

/-- C9 (amended): a save leaves every stored file at another path
untouched, and a database save appends one row, preserving every existing
row; `list` and `get` are read-only.  The unqualified claim fails: a
file-backend save that reuses an existing identifier overwrites that
record (see the counterexample). -/
theorem claim_C9 (fs : FileSystem) (db : Database) (e : SaveEvent)
    (q : List String) (hq : q ≠ savePath e) :
    findEntry (fileSave fs e).1.files q = findEntry fs.files q ∧
    (dbSave db e).1.rows = db.rows ++ [dbRowOf db.nextSerial e] ∧
    ∀ r ∈ db.rows, r ∈ (dbSave db e).1.rows := by
  refine ⟨?_, rfl, fun r hr => ?_⟩
  · rw [fileSave_fst, fsWrite_lookup_ne hq]
  · rw [dbSave_rows]
    exact List.mem_append_left _ hr

/-- C9 witness: the frame condition evaluated at a concrete distinct
path. -/
theorem claim_C9_witness :
    findEntry (fileSave emptyFs eventA).1.files
        (logsDir ++ ["webhook-other.json"]) =
      findEntry emptyFs.files (logsDir ++ ["webhook-other.json"]) ∧
    (dbSave emptyDb eventA).1.rows =
      emptyDb.rows ++ [dbRowOf emptyDb.nextSerial eventA] ∧
    ∀ r ∈ emptyDb.rows, r ∈ (dbSave emptyDb eventA).1.rows :=
  claim_C9 emptyFs emptyDb eventA (logsDir ++ ["webhook-other.json"])
    (by decide)

/-- C9 counterexample: a later save reusing the same identifier silently
overwrites the previously persisted record on the file backend — the
stored record is not immutable. -/
theorem claim_C9_cex :
    fileGet (fileReplay [eventA] emptyFs) (makeFilename timeA) =
      .render (some payloadA.headers) (some payloadA.body)
        (some payloadA.query) ∧
    fileGet (fileReplay [eventA, eventA2] emptyFs) (makeFilename timeA) =
      .render (some payloadB.headers) (some payloadB.body)
        (some payloadB.query) ∧
    payloadA.headers ≠ payloadB.headers := by
  refine ⟨rfl, rfl, ?_⟩
  simp [payloadA, payloadB]

/-- C10: the file-backend `get` applies no validation to the requested
identifier: a name carrying a traversal segment — which no save sequence
can ever create, and which does not match the `webhook-` pattern —
resolves outside the logs directory to an existing file and is served. -/
theorem claim_C10 (evs : List SaveEvent)
    (hslash : ∀ e ∈ evs, ('/' : Char) ∉ e.t1.data) :
    fileGet outsideFs traversalName = .render none none none ∧
    pathJoin logsDir traversalName = dirname ++ ["secret.json"] ∧
    listStartsWith traversalName.data "webhook-".data = false ∧
    findEntry (fileReplay evs emptyFs).files
      (pathJoin logsDir traversalName) = none := by
  refine ⟨rfl, rfl, rfl, ?_⟩
  apply fileReplay_lookup_none evs emptyFs rfl
  intro e he
  rw [savePath_eq (hslash e he),
    show pathJoin logsDir traversalName = dirname ++ ["secret.json"] from rfl]
  intro hc
  have := congrArg List.length hc
  simp [dirname, logsDir] at this

/-- C10 witness: the traversal read evaluated against a store built by one
concrete save. -/
theorem claim_C10_witness :
    fileGet outsideFs traversalName = .render none none none ∧
    pathJoin logsDir traversalName = dirname ++ ["secret.json"] ∧
    listStartsWith traversalName.data "webhook-".data = false ∧
    findEntry (fileReplay [eventA] emptyFs).files
      (pathJoin logsDir traversalName) = none :=
  claim_C10 [eventA] (by decide)

end WebhookLogger
